import Mathlib

/-!
Shallow embedding of the FullCache client-side caching engine
(`src/utils.js`, `src/api-cache-manager.js`, `src/cache-config-store.js`,
`src/cache-config-sync-client.js`, `src/dedup-response-manager.js`,
`src/config-persistence.js`, `index.js`), together with theorems checking
the natural-language specification against it.

JavaScript strings, lists and maps are modelled with Lean `String` and
`List`; `URLSearchParams` is a list of name/value pairs (percent
encoding and decoding are not modelled: they are injective and
order-preserving, so equality of parameter lists coincides with equality
of serialized query strings); machine timestamps are `Nat` (non-negative
millisecond counts); promise rejections of the translated functions are
`Option`/explicit error fields.
-/

namespace FullCache

/-- JavaScript `s.startsWith(pre)` (expressed over character lists so
that it evaluates inside the kernel). -/
def strStartsWith (s pre : String) : Bool := decide (pre.toList <+: s.toList)

/-- JavaScript `s.endsWith(suf)`. -/
def strEndsWith (s suf : String) : Bool := decide (suf.toList <:+ s.toList)

/-- ASCII lower-casing of one character, as JavaScript `toLowerCase`
acts on the ASCII header names the engine uses. -/
def charLower (c : Char) : Char :=
  if 65 ≤ c.toNat ∧ c.toNat ≤ 90 then Char.ofNat (c.toNat + 32) else c

/-- JavaScript `s.toLowerCase()` restricted to ASCII. -/
def strToLower (s : String) : String := ⟨s.data.map charLower⟩

/-- Lexicographic code-unit comparison of character lists, the order
`URLSearchParams.sort` and `Array.prototype.sort` use on names. -/
def charListLe : List Char → List Char → Bool
  | [], _ => true
  | _ :: _, [] => false
  | a :: as, b :: bs =>
    if a.toNat < b.toNat then true
    else if b.toNat < a.toNat then false
    else charListLe as bs

/-- Lexicographic string comparison by code units. -/
def strLe (a b : String) : Bool := charListLe a.data b.data

/-- JSON values as produced by `JSON.parse`. Object entries keep the
textual order of the parsed document (JavaScript objects preserve
insertion order for non-integer string keys). -/
inductive Json where
  | null : Json
  | bool (b : Bool) : Json
  | num (n : Int) : Json
  | str (s : String) : Json
  | arr (elems : List Json) : Json
  | obj (entries : List (String × Json)) : Json

/-- Escapes one character the way `JSON.stringify` escapes it inside a
string literal (only the quote and backslash cases matter here). -/
def jsonEscapeChar (c : Char) : String :=
  if c = '"' then "\\\"" else if c = '\\' then "\\\\" else String.singleton c

/-- Escaping of a string for `JSON.stringify`. -/
def jsonEscape (s : String) : String :=
  String.join (s.toList.map jsonEscapeChar)

mutual

/-- `JSON.stringify` on a JSON value: serializes object entries in their
stored order, which is what makes the sync client's change detection
order-sensitive. -/
def jsonStringify : Json → String
  | .null => "null"
  | .bool true => "true"
  | .bool false => "false"
  | .num n => toString n
  | .str s => "\"" ++ jsonEscape s ++ "\""
  | .arr elems => "[" ++ jsonStringifyList elems ++ "]"
  | .obj entries => "\x7b" ++ jsonStringifyEntries entries ++ "\x7d"

/-- Serialization of an array's element list. -/
def jsonStringifyList : List Json → String
  | [] => ""
  | [j] => jsonStringify j
  | j :: rest => jsonStringify j ++ "," ++ jsonStringifyList rest

/-- Serialization of an object's entry list. -/
def jsonStringifyEntries : List (String × Json) → String
  | [] => ""
  | [(k, v)] => "\"" ++ jsonEscape k ++ "\":" ++ jsonStringify v
  | (k, v) :: rest =>
      "\"" ++ jsonEscape k ++ "\":" ++ jsonStringify v ++ "," ++ jsonStringifyEntries rest

end

/-- Ordering of object entries by key, used both by the canonical form
and by the `Object.keys(...).sort()` of the body serializer. -/
def jkeyLe (p q : String × Json) : Prop := strLe p.1 q.1 = true

instance : DecidableRel jkeyLe := fun _ _ => inferInstanceAs (Decidable (_ = true))

mutual

/-- Canonical form of a JSON value: object entries sorted by key at
every level. Two values are structurally equal (in the sense of the
specification's canonical JSON comparison) iff their canonical forms are
equal. -/
def jsonCanon : Json → Json
  | .null => .null
  | .bool b => .bool b
  | .num n => .num n
  | .str s => .str s
  | .arr elems => .arr (jsonCanonList elems)
  | .obj entries => .obj (List.insertionSort jkeyLe (jsonCanonEntries entries))

/-- Canonicalization of an array's element list. -/
def jsonCanonList : List Json → List Json
  | [] => []
  | j :: rest => jsonCanon j :: jsonCanonList rest

/-- Canonicalization of an object's entry list. -/
def jsonCanonEntries : List (String × Json) → List (String × Json)
  | [] => []
  | (k, v) :: rest => (k, jsonCanon v) :: jsonCanonEntries rest

end

/-- Modelled from the spec: "delivered to `onReceive` iff structurally
different from the last delivered value (by canonical JSON comparison)".
Structural equality of JSON values, insensitive to object-key order,
expressed as equality of canonical serializations. -/
def jsonStructEq (a b : Json) : Prop :=
  jsonStringify (jsonCanon a) = jsonStringify (jsonCanon b)

instance (a b : Json) : Decidable (jsonStructEq a b) :=
  inferInstanceAs (Decidable (jsonStringify (jsonCanon a) = jsonStringify (jsonCanon b)))

/-- One `name=value` pair of a `URLSearchParams` list. -/
abbrev Param := String × String

/-- `URLSearchParams.get`: the value of the first parameter with the
given name. -/
def getParam : List Param → String → Option String
  | [], _ => none
  | (m, w) :: rest, n => if m = n then some w else getParam rest n

/-- `URLSearchParams.set(n, v)`: replaces the value of the first
parameter named `n` in place, removes any further parameters with that
name, and appends the pair when the name is absent. -/
def setParam : List Param → String → String → List Param
  | [], n, v => [(n, v)]
  | (m, w) :: rest, n, v =>
    if m = n then (n, v) :: rest.filter (fun p => p.1 ≠ n)
    else (m, w) :: setParam rest n v

/-- Name ordering of `URLSearchParams.sort`: pairs compare by name only,
and the sort is stable, so pairs with equal names keep their relative
order. -/
def paramLe (p q : Param) : Prop := strLe p.1 q.1 = true

instance : DecidableRel paramLe := fun _ _ => inferInstanceAs (Decidable (_ = true))

/-- `URLSearchParams.sort()`: stable sort by parameter name
(`List.insertionSort` is stable in the same direction). -/
def sortParams (params : List Param) : List Param := List.insertionSort paramLe params

/-- Substring test, modelling JavaScript `String.prototype.includes`. -/
def strContains (hay needle : String) : Bool := decide (needle.toList <:+: hay.toList)

/-- `Headers.get`: case-insensitive lookup; the values of all headers
with the matching name are joined with a comma and a space. -/
def headersGet (headers : List (String × String)) (n : String) : Option String :=
  match (headers.filter (fun p => strToLower p.1 == strToLower n)).map Prod.snd with
  | [] => none
  | vs => some (String.intercalate ", " vs)

/-- `getNormalizedPathname` (`src/utils.js`):
`url.pathname.replace(/^\/|\/$/g, '')` removes a single leading and a
single trailing slash. -/
def getNormalizedPathname (pathname : String) : String :=
  let s := if strStartsWith pathname "/" then pathname.drop 1 else pathname
  if strEndsWith s "/" then s.dropRight 1 else s

/-- A request body: the raw text together with the result of
`JSON.parse` on it (`none` when parsing fails). -/
structure Body where
  raw : String := ""
  json : Option Json := none

/-- An intercepted request: the pieces of the `Request` object that the
engine reads (`new URL(request.url)` is pre-split into origin, pathname
and search parameters). -/
structure Request where
  origin : String
  pathname : String
  searchParams : List Param := []
  method : String := "GET"
  headers : List (String × String) := []
  body : Body := {}

/-- JavaScript `s || 'none'` on a string: the alternative is taken
exactly when the string is empty (the only falsy string). -/
def jsOrNone (s : String) : String := if s = "" then "none" else s

/-- JavaScript `headers.get(h) || 'none'`: both `null` (absent header)
and the empty string are falsy. -/
def jsStringOrNone : Option String → String
  | none => "none"
  | some s => if s = "" then "none" else s

/-- Parse of a `application/x-www-form-urlencoded` body into pairs, as
`new URLSearchParams(text)` does (percent decoding not modelled). -/
def parseFormParams (s : String) : List Param :=
  (s.splitOn "&").filterMap fun piece =>
    if piece = "" then none
    else match piece.splitOn "=" with
      | [] => none
      | [n] => some (n, "")
      | n :: rest => some (n, String.intercalate "=" rest)

/-- The form-urlencoded branch of `serializeRequestBodyForKey`: parse,
`params.sort()`, `params.toString()`. -/
def serializeFormBody (s : String) : String :=
  String.intercalate "&" ((sortParams (parseFormParams s)).map fun p => p.1 ++ "=" ++ p.2)

/-- `Object.keys` enumeration of a parsed JSON body (arrays enumerate
their indices as string keys, which is what the source's
`Object.keys(bodyAsJson)` does for an array body). -/
def jsObjectEntries : Json → List (String × Json)
  | .obj entries => entries
  | .arr elems => elems.enum.map fun p => (toString p.1, p.2)
  | _ => []

/-- The check `bodyAsJson && typeof bodyAsJson === 'object'`: `null` is
falsy, arrays and objects have typeof `object`. -/
def jsIsTruthyObject : Json → Bool
  | .obj _ => true
  | .arr _ => true
  | _ => false

/-- The JSON branch of `serializeRequestBodyForKey`:
`Object.keys(bodyAsJson).sort().reduce(...)` re-serialized with
`JSON.stringify`, i.e. the top-level entries sorted by key. -/
def sortedJsonBodyString (j : Json) : String :=
  jsonStringify (.obj (List.insertionSort jkeyLe (jsObjectEntries j)))

/-- `serializeRequestBodyForKey` (`src/utils.js`). `none` models a
rejected promise: when the content type contains `application/json` and
the parsed body is not a truthy object (parse failure, `null`, or a
primitive), the source falls through to `clonedRequest.text()`, whose
body stream was already consumed by `clonedRequest.json()`, so the call
throws. -/
def serializeRequestBodyForKey (request : Request) : Option String :=
  if request.method = "GET" ∨ request.method = "HEAD" then some ""
  else
    let contentType := (headersGet request.headers "content-type").getD ""
    if strContains contentType "application/json" then
      match request.body.json with
      | some bodyAsJson =>
        if jsIsTruthyObject bodyAsJson then some (sortedJsonBodyString bodyAsJson)
        else none
      | none => none
    else
      let bodyAsText := request.body.raw
      if strContains contentType "application/x-www-form-urlencoded" then
        some (serializeFormBody bodyAsText)
      else some bodyAsText

/-- The URL of a cache-key request: the identity under which
`cache.match`, `cache.put` and `cache.delete` operate. -/
structure CacheUrl where
  origin : String
  pathname : String
  searchParams : List Param
deriving DecidableEq, Repr

/-- The request object handed to the cache: its URL plus the method and
headers the `Request` constructor keeps on it. -/
structure KeyRequest where
  url : CacheUrl
  method : String
  headers : List (String × String)
deriving DecidableEq, Repr

/-- `buildCacheKeyRequest` (`src/utils.js`): normalize the pathname, set
the `__body`, `__method` and `__header-*` parameters, sort all
parameters by name, and build a new `Request` from the URL with the
original headers. The `Request` constructor is given no `method`
option, so the produced request's method is the default `GET`. `none`
models the rejection propagated from `serializeRequestBodyForKey`. -/
def buildCacheKeyRequest (request : Request) (keyHeaders : List String) :
    Option KeyRequest :=
  match serializeRequestBodyForKey request with
  | none => none
  | some body =>
    let params0 := setParam request.searchParams "__body" (jsOrNone body)
    let params1 := setParam params0 "__method" request.method
    let params2 := keyHeaders.foldl
      (fun ps keyHeader =>
        setParam ps ("__header-" ++ keyHeader)
          (jsStringOrNone (headersGet request.headers keyHeader)))
      params1
    some
      { url := { origin := request.origin,
                 pathname := getNormalizedPathname request.pathname,
                 searchParams := sortParams params2 }
        method := "GET"
        headers := request.headers }

/-- The body of the deletion loop of `revertCacheKeyRequest`: when the
parameter name at the iterator's position starts with `__`, delete every
parameter with that name, else leave the list unchanged. -/
def revertStep (params : List Param) (key : String) : List Param :=
  if strStartsWith key "__" then params.filter (fun p => p.1 ≠ key) else params

theorem revertStep_length_le (params : List Param) (key : String) :
    (revertStep params key).length ≤ params.length := by
  unfold revertStep
  split
  · exact List.length_filter_le _ _
  · exact le_refl _

/-- Iteration of the deletion loop of `revertCacheKeyRequest`, with an
explicit iteration bound making the recursion structural. The loop's
index `i` grows by one per step while the list never grows, so the loop
performs at most `params.length - i` further iterations; whenever `fuel`
reaches zero under that invariant, `i ≥ params.length` already holds and
the loop would exit anyway, so returning `params` agrees with the
unbounded loop. -/
def revertLoopAux : Nat → List Param → Nat → List Param
  | 0, params, _ => params
  | fuel + 1, params, i =>
    if h : i < params.length then
      revertLoopAux fuel (revertStep params (params.get ⟨i, h⟩).1) (i + 1)
    else params

/-- The loop of `revertCacheKeyRequest`:
`for (const key of searchParams.keys()) if key.startsWith('__') searchParams.delete(key)`.
The iterator is live over the parameter list, and `delete` removes the
entries in place, so after a deletion the iterator's next step lands one
past the entry that slid into the deleted slot: the entry immediately
following a deleted parameter is never visited. -/
def revertLoop (params : List Param) (i : Nat) : List Param :=
  revertLoopAux (params.length - i) params i

/-- Order lemma: `charListLe` is total. -/
theorem charListLe_total : ∀ (a b : List Char), charListLe a b = true ∨ charListLe b a = true
  | [], _ => .inl rfl
  | _ :: _, [] => .inr rfl
  | a :: as, b :: bs => by
    rcases Nat.lt_trichotomy a.toNat b.toNat with h | h | h
    · left; simp [charListLe, h]
    · have h1 : ¬ a.toNat < b.toNat := by omega
      have h2 : ¬ b.toNat < a.toNat := by omega
      simpa [charListLe, h1, h2] using charListLe_total as bs
    · right; simp [charListLe, h]

/-- Order lemma: `charListLe` is transitive. -/
theorem charListLe_trans :
    ∀ {a b c : List Char}, charListLe a b = true → charListLe b c = true →
      charListLe a c = true
  | [], _, _, _, _ => rfl
  | _ :: _, [], _, h, _ => by simp [charListLe] at h
  | _ :: _, _ :: _, [], _, h => by simp [charListLe] at h
  | a :: as, b :: bs, c :: cs, h1, h2 => by
    by_cases hab : a.toNat < b.toNat <;> by_cases hbc : b.toNat < c.toNat
    · have : a.toNat < c.toNat := by omega
      simp [charListLe, this]
    · have h2' : b.toNat = c.toNat ∧ charListLe bs cs = true := by
        by_cases hcb : c.toNat < b.toNat
        · simp [charListLe, hbc, hcb] at h2
        · exact ⟨by omega, by simpa [charListLe, hbc, hcb] using h2⟩
      have : a.toNat < c.toNat := by omega
      simp [charListLe, this]
    · have h1' : a.toNat = b.toNat ∧ charListLe as bs = true := by
        by_cases hba : b.toNat < a.toNat
        · simp [charListLe, hab, hba] at h1
        · exact ⟨by omega, by simpa [charListLe, hab, hba] using h1⟩
      have : a.toNat < c.toNat := by omega
      simp [charListLe, this]
    · have h1' : a.toNat = b.toNat ∧ charListLe as bs = true := by
        by_cases hba : b.toNat < a.toNat
        · simp [charListLe, hab, hba] at h1
        · exact ⟨by omega, by simpa [charListLe, hab, hba] using h1⟩
      have h2' : b.toNat = c.toNat ∧ charListLe bs cs = true := by
        by_cases hcb : c.toNat < b.toNat
        · simp [charListLe, hbc, hcb] at h2
        · exact ⟨by omega, by simpa [charListLe, hbc, hcb] using h2⟩
      have hac1 : ¬ a.toNat < c.toNat := by omega
      have hac2 : ¬ c.toNat < a.toNat := by omega
      simpa [charListLe, hac1, hac2] using charListLe_trans h1'.2 h2'.2

/-- Order lemma: `charListLe` is antisymmetric. -/
theorem charListLe_antisymm :
    ∀ {a b : List Char}, charListLe a b = true → charListLe b a = true → a = b
  | [], [], _, _ => rfl
  | [], _ :: _, _, h => by simp [charListLe] at h
  | _ :: _, [], h, _ => by simp [charListLe] at h
  | a :: as, b :: bs, h1, h2 => by
    by_cases hab : a.toNat < b.toNat
    · have : ¬ b.toNat < a.toNat := by omega
      simp [charListLe, hab, this] at h2
    · by_cases hba : b.toNat < a.toNat
      · simp [charListLe, hab, hba] at h1
      · have heq : a.toNat = b.toNat := by omega
        have hchar : a = b := by
          have := congrArg Char.ofNat heq
          rwa [Char.ofNat_toNat, Char.ofNat_toNat] at this
        have h1' : charListLe as bs = true := by simpa [charListLe, hab, hba] using h1
        have h2' : charListLe bs as = true := by
          have hab' : ¬ b.toNat < a.toNat := hba
          have hba' : ¬ a.toNat < b.toNat := hab
          simpa [charListLe, hab', hba'] using h2
        rw [hchar, charListLe_antisymm h1' h2']

/-- Totality of the string order. -/
theorem strLe_total (a b : String) : strLe a b = true ∨ strLe b a = true :=
  charListLe_total a.data b.data

/-- Transitivity of the string order. -/
theorem strLe_trans {a b c : String} (h1 : strLe a b = true) (h2 : strLe b c = true) :
    strLe a c = true :=
  charListLe_trans h1 h2

/-- Antisymmetry of the string order. -/
theorem strLe_antisymm {a b : String} (h1 : strLe a b = true) (h2 : strLe b a = true) :
    a = b := by
  cases a; cases b
  exact congrArg String.mk (charListLe_antisymm h1 h2)

instance : IsTotal Param paramLe := ⟨fun p q => strLe_total p.1 q.1⟩

instance : IsTrans Param paramLe := ⟨fun _ _ _ => strLe_trans⟩

instance : IsTotal (String × Json) jkeyLe := ⟨fun p q => strLe_total p.1 q.1⟩

instance : IsTrans (String × Json) jkeyLe := ⟨fun _ _ _ => strLe_trans⟩

/-- `revertCacheKeyRequest` (`src/utils.js`): runs the deletion loop on
the URL's search parameters and rebuilds the request with the same
headers and the same method (the key request's method, not the original
request's). -/
def revertCacheKeyRequest (request : KeyRequest) : KeyRequest :=
  { url := { request.url with searchParams := revertLoop request.url.searchParams 0 }
    method := request.method
    headers := request.headers }

/-- ASCII upper-casing of one character, for `method.toUpperCase()`. -/
def charUpper (c : Char) : Char :=
  if 97 ≤ c.toNat ∧ c.toNat ≤ 122 then Char.ofNat (c.toNat - 32) else c

/-- JavaScript `s.toUpperCase()` restricted to ASCII. -/
def strToUpper (s : String) : String := ⟨s.data.map charUpper⟩

/-- JavaScript truthiness of an optional number: `undefined` and `0` are
falsy. -/
def jsTruthyNat : Option Nat → Bool
  | none => false
  | some n => decide (n ≠ 0)

/-- The prefetch modes of the configuration. -/
inductive PrefetchMode where
  | always | onLoad | onUpdate | never
deriving DecidableEq, Repr

/-- One `settings` object of the configuration tree
(`src/cache-config-store.js` typedef `CacheSettings`): every field is
optional; an absent field is simply missing from the JSON object, which
is what makes the spread-based merge skip it. -/
structure CacheSettingsPart where
  lastModified : Option Nat := none
  ttl : Option Nat := none
  keyHeaders : Option (List String) := none
  prefetch : Option PrefetchMode := none
deriving DecidableEq, Repr

/-- Endpoint-level node (`EndpointConfig` typedef). -/
structure EndpointConfig where
  settings : Option CacheSettingsPart := none
  methods : List (String × CacheSettingsPart) := []
deriving DecidableEq, Repr

/-- Host-level node (`HostConfig` typedef). -/
structure HostConfig where
  settings : Option CacheSettingsPart := none
  endpoints : List (String × EndpointConfig) := []
deriving DecidableEq, Repr

/-- Root configuration (`CacheConfig` typedef). -/
structure CacheConfig where
  settings : Option CacheSettingsPart := none
  hosts : List (String × HostConfig) := []
  cacheTTL : Option Nat := none
deriving DecidableEq, Repr

/-- The merged settings returned by `resolveRequestSettings`: the
defaults `keyHeaders: []` and `prefetch: 'never'` are always filled
in. -/
structure CacheSettings where
  lastModified : Option Nat
  ttl : Option Nat
  keyHeaders : List String
  prefetch : PrefetchMode
deriving DecidableEq, Repr

/-- One step of `levels.reduce((acc, level) => ({...acc, ...level}), {})`:
fields present on `level` override `acc`, absent fields fall through. -/
def mergeSettings (acc level : CacheSettingsPart) : CacheSettingsPart :=
  { lastModified := level.lastModified <|> acc.lastModified
    ttl := level.ttl <|> acc.ttl
    keyHeaders := level.keyHeaders <|> acc.keyHeaders
    prefetch := level.prefetch <|> acc.prefetch }

/-- `resolveRequestSettings` (`src/cache-config-store.js`): `undefined`
without a current config, for a black-listed origin, for an unknown
host, or when no settings object exists at any level; otherwise the
deep-merged settings with child precedence and the defaults applied.
The host is looked up by `new URL(request.url).origin`, the endpoint by
the normalized pathname, the method entry by the upper-cased method. -/
def resolveRequestSettings (current : Option CacheConfig) (blackList : Option (List String))
    (origin pathname method : String) : Option CacheSettings :=
  match current with
  | none => none
  | some cfg =>
    if (blackList.getD []).contains origin then none
    else
      match cfg.hosts.lookup origin with
      | none => none
      | some hostConfig =>
        let cleanedPathname := getNormalizedPathname pathname
        let endpointConfig := hostConfig.endpoints.lookup cleanedPathname
        let methodConfig := endpointConfig.bind fun e => e.methods.lookup (strToUpper method)
        let levels := [cfg.settings, hostConfig.settings,
                       endpointConfig.bind (fun e => e.settings), methodConfig].filterMap id
        match levels with
        | [] => none
        | _ =>
          let merged := levels.foldl mergeSettings {}
          some { lastModified := merged.lastModified
                 ttl := merged.ttl
                 keyHeaders := merged.keyHeaders.getD []
                 prefetch := merged.prefetch.getD .never }

/-- A stored response: the pieces the engine reads back. -/
structure StoredResponse where
  status : Nat := 200
  body : String := ""
  headers : List (String × String) := []
deriving DecidableEq, Repr

/-- The response store: `(request, response)` pairs of the named blob
store; `cache.match` compares by request URL. -/
def cacheMatch (cache : List (KeyRequest × StoredResponse)) (key : KeyRequest) :
    Option StoredResponse :=
  (cache.find? (fun e => decide (e.1.url = key.url))).map Prod.snd

/-- JavaScript unary plus on `headers.get(name)`: `+null = 0`, `+'' = 0`,
a decimal digit string is its numeric value, and any other string is
`NaN`, modelled as `none`. -/
def jsToNumber : Option String → Option Nat
  | none => some 0
  | some s =>
    if s.data = [] then some 0
    else if s.data.all (fun c => decide (48 ≤ c.toNat ∧ c.toNat ≤ 57)) then
      some (s.data.foldl (fun n c => n * 10 + (c.toNat - 48)) 0)
    else none

/-- The four ways `getResponse` can leave its cache consultation: bypass
without cache interaction, serve the stored response, evict the entry
and fall through to the deduplicated fetch-and-store, or fetch on a
plain miss. In the two fetch outcomes the produced cache-key request is
what `fetchAndStoreInCache` will `cache.put` under, and its URL is the
deduplication key. -/
inductive GetResponseResult where
  | bypass
  | servedFromCache (response : StoredResponse)
  | fetchAfterEvict (key : KeyRequest)
  | fetchOnMiss (key : KeyRequest)
deriving DecidableEq, Repr

/-- `getResponse` (`src/utils.js`): resolve the merged settings (bypass
when absent), build the cache key, `cache.match` it, and serve the
cached response exactly when `+cachedResponse.headers.get(tsHeader) <=
Date.now()`; otherwise delete the entry and fall through to the
deduplicated network fetch. A `NaN` timestamp fails the `<=` comparison
and therefore also takes the delete-and-fetch branch. `none` models the
rejection propagated out of `buildCacheKeyRequest`. -/
def getResponse (request : Request) (cacheTimestampHeader : String)
    (current : Option CacheConfig) (cache : List (KeyRequest × StoredResponse))
    (now : Nat) : Option GetResponseResult :=
  match resolveRequestSettings current none request.origin request.pathname request.method with
  | none => some .bypass
  | some endpointConfig =>
    match buildCacheKeyRequest request endpointConfig.keyHeaders with
    | none => none
    | some requestCacheKey =>
      match cacheMatch cache requestCacheKey with
      | some cachedResponse =>
        match jsToNumber (headersGet cachedResponse.headers cacheTimestampHeader) with
        | some cachedTimestamp =>
          if cachedTimestamp ≤ now then some (.servedFromCache cachedResponse)
          else some (.fetchAfterEvict requestCacheKey)
        | none => some (.fetchAfterEvict requestCacheKey)
      | none => some (.fetchOnMiss requestCacheKey)

/-- Modelled from the spec (§4.5 freshness decision, quoted by the
claims): with `lastModified` present the entry is fresh iff
`T_stored ≥ lastModified`; else with `ttl` present iff
`T_stored + ttl > now`; else no rule applies (`none`). Stated here only
to compare the source's decisions against the specified ones. -/
def specFreshness (settings : CacheSettings) (tStored now : Nat) : Option Bool :=
  match settings.lastModified with
  | some lm => some (decide (tStored ≥ lm))
  | none =>
    match settings.ttl with
    | some ttl => some (decide (tStored + ttl > now))
    | none => none

/-- The per-entry decision of `deleteStaleEntries`
(`src/api-cache-manager.js`): revert the stored key, resolve its
settings (skip the entry when none resolve), then delete when the
timestamp header is `NaN` (after a warning log) or when
`responseTimestamp < endpointConfig.lastModified`; the JavaScript `<`
comparison against an absent `lastModified` is false, so such entries
are kept. The `ttl` field is never consulted. -/
def shouldDeleteEntry (current : Option CacheConfig) (cacheTimestampHeader : String)
    (request : KeyRequest) (response : StoredResponse) : Bool :=
  let originalRequest := revertCacheKeyRequest request
  match resolveRequestSettings current none originalRequest.url.origin
      originalRequest.url.pathname originalRequest.method with
  | none => false
  | some endpointConfig =>
    match jsToNumber (headersGet response.headers cacheTimestampHeader) with
    | none => true
    | some responseTimestamp =>
      match endpointConfig.lastModified with
      | none => false
      | some lm => decide (responseTimestamp < lm)

/-- `deleteStaleEntries` (`src/api-cache-manager.js`): iterates all
stored keys and deletes the ones `shouldDeleteEntry` selects. -/
def deleteStaleEntries (current : Option CacheConfig) (cacheTimestampHeader : String)
    (cache : List (KeyRequest × StoredResponse)) : List (KeyRequest × StoredResponse) :=
  cache.filter (fun e => ! shouldDeleteEntry current cacheTimestampHeader e.1 e.2)

/-- The persisted record `saveConfigToIndexedDB` writes under the
`latest` key: `{ config, savedAt: Date.now() }`. -/
structure PersistedRecord where
  config : CacheConfig
  savedAt : Nat
deriving DecidableEq, Repr

/-- The state a `CacheConfigStore` owns: the in-memory `#current`
config, the durable record, and the pending TTL-cleanup timer (by its
delay). -/
structure StoreState where
  current : Option CacheConfig := none
  persisted : Option PersistedRecord := none
  cleanupDelay : Option Nat := none
deriving DecidableEq, Repr

/-- Everything one `CacheConfigStore.set` call produces: the new store
state, which callbacks fired, and whether a persistence rejection
escaped to `set`'s caller. -/
structure SetResult where
  state : StoreState
  firedOnSet : Bool
  firedOnReset : Bool
  persistFailed : Bool
deriving DecidableEq, Repr

/-- `CacheConfigStore.set` (`src/cache-config-store.js`): cancel any
scheduled cleanup, assign `#current := newCacheConfig`; for a non-null
config with truthy `cacheTTL`, `await saveConfigToIndexedDB(...)` and
schedule cleanup, then fire `onSet`; for null, clear the persisted
record and fire `onReset`. `saveConfigToIndexedDB` and `set` contain no
try/catch, so when persistence fails (`persistOk = false`) the rejection
aborts `set` after the `#current` assignment: no cleanup is scheduled,
`onSet` does not fire, nothing is logged, and `set`'s caller sees the
rejection. The null branch's `clearConfigFromIndexedDB` is modelled as
succeeding. -/
def storeSet (st : StoreState) (newCacheConfig : Option CacheConfig)
    (persistOk : Bool) (now : Nat) : SetResult :=
  let st0 : StoreState := { st with cleanupDelay := none, current := newCacheConfig }
  match newCacheConfig with
  | some cfg =>
    if jsTruthyNat cfg.cacheTTL then
      if persistOk then
        { state := { st0 with persisted := some ⟨cfg, now⟩, cleanupDelay := cfg.cacheTTL }
          firedOnSet := true, firedOnReset := false, persistFailed := false }
      else
        { state := st0, firedOnSet := false, firedOnReset := false, persistFailed := true }
    else
      { state := st0, firedOnSet := true, firedOnReset := false, persistFailed := false }
  | none =>
    { state := { st0 with persisted := none }
      firedOnSet := false, firedOnReset := true, persistFailed := false }

/-- `#triggerReceiveNewCacheConfigIfHasChanges`
(`src/cache-config-sync-client.js`): nothing happens without an
`onReceiveNewCacheConfig` callback; otherwise the incoming config is
delivered iff `JSON.stringify(newCacheConfig)` differs from
`JSON.stringify(#currentCacheConfig)` (the latter initially `null`).
Returns the updated `#currentCacheConfig` and whether the callback was
invoked. -/
def triggerReceiveNewCacheConfigIfHasChanges (hasReceiveCallback : Bool)
    (currentCacheConfig : Option Json) (newCacheConfig : Json) : Option Json × Bool :=
  if !hasReceiveCallback then (currentCacheConfig, false)
  else if jsonStringify newCacheConfig ≠ jsonStringify (currentCacheConfig.getD .null) then
    (some newCacheConfig, true)
  else (currentCacheConfig, false)

/-- Everything one `getDedupedResponse` call does, from the point of
view of its promises and shared state. `joinedExisting` is true when
step 1 returned the pending promise of an already-registered deferred;
`callerResult` is what the call itself returns or throws (absent when
joined — the caller then awaits the existing deferred);
`deferredResolved` / `deferredRejected` record whether the deferred this
call registered was ever settled. -/
structure DedupRunResult where
  joinedExisting : Bool
  callerResult : Option (Except String StoredResponse)
  deferredResolved : Bool
  deferredRejected : Bool
  inFlightReleased : Bool
  heartbeatEnded : Bool
  postedResponseReady : Bool
  timeoutCleared : Bool
deriving Repr

/-- `getDedupedResponse` (`src/dedup-response-manager.js`), one call with
the fetcher's outcome given: if the key is in `inFlightRequests` the
existing deferred's promise is returned; otherwise a deferred is created
and registered, a heartbeat started, and the fetcher awaited — on
success the serialized response is broadcast (`response-ready`), the
deferred is resolved and the response returned; on failure the error is
logged and re-thrown; either way the `finally` block deletes the
in-flight entry, ends the heartbeat, and clears the timeout. The catch
path never calls `deferred.reject`, so on failure the registered
deferred is left unsettled. -/
def getDedupedResponse (inFlight : List String) (key : String)
    (fetchOutcome : Except String StoredResponse) : DedupRunResult :=
  if inFlight.contains key then
    { joinedExisting := true, callerResult := none
      deferredResolved := false, deferredRejected := false
      inFlightReleased := false, heartbeatEnded := false
      postedResponseReady := false, timeoutCleared := false }
  else
    match fetchOutcome with
    | .ok response =>
      { joinedExisting := false, callerResult := some (.ok response)
        deferredResolved := true, deferredRejected := false
        inFlightReleased := true, heartbeatEnded := true
        postedResponseReady := true, timeoutCleared := true }
    | .error e =>
      { joinedExisting := false, callerResult := some (.error e)
        deferredResolved := false, deferredRejected := false
        inFlightReleased := true, heartbeatEnded := true
        postedResponseReady := false, timeoutCleared := true }

/-! Support lemmas about `setParam`, parameter names, and sorting. -/

theorem mem_setParam_of_ne {p : Param} {l : List Param} {n v : String}
    (hne : p.1 ≠ n) (hmem : p ∈ l) : p ∈ setParam l n v := by
  induction l with
  | nil => cases hmem
  | cons hd rest ih =>
    obtain ⟨m, w⟩ := hd
    by_cases hm : m = n
    · rcases List.mem_cons.mp hmem with h1 | h1
      · exact absurd (h1 ▸ hne) (by simp [hm])
      · simp only [setParam, if_pos hm]
        exact List.mem_cons_of_mem _ (List.mem_filter.mpr ⟨h1, by simpa using hne⟩)
    · simp only [setParam, if_neg hm]
      rcases List.mem_cons.mp hmem with h1 | h1
      · exact h1 ▸ List.mem_cons_self _ _
      · exact List.mem_cons_of_mem _ (ih h1)

theorem mem_of_mem_setParam {q : Param} {l : List Param} {n v : String}
    (h : q ∈ setParam l n v) : q = (n, v) ∨ (q ∈ l ∧ q.1 ≠ n) := by
  induction l with
  | nil => exact .inl (by simpa [setParam] using h)
  | cons hd rest ih =>
    obtain ⟨m, w⟩ := hd
    by_cases hm : m = n
    · rw [setParam, if_pos hm] at h
      rcases List.mem_cons.mp h with h1 | h1
      · exact .inl h1
      · have h2 := List.mem_filter.mp h1
        exact .inr ⟨List.mem_cons_of_mem _ h2.1, by simpa using h2.2⟩
    · rw [setParam, if_neg hm] at h
      rcases List.mem_cons.mp h with h1 | h1
      · exact .inr ⟨h1 ▸ List.mem_cons_self _ _, by simp [h1, hm]⟩
      · rcases ih h1 with h2 | h2
        · exact .inl h2
        · exact .inr ⟨List.mem_cons_of_mem _ h2.1, h2.2⟩

theorem self_mem_setParam (l : List Param) (n v : String) : (n, v) ∈ setParam l n v := by
  induction l with
  | nil => simp [setParam]
  | cons hd rest ih =>
    obtain ⟨m, w⟩ := hd
    by_cases hm : m = n
    · simp [setParam, hm]
    · simp only [setParam, if_neg hm]
      exact List.mem_cons_of_mem _ ih

/-- Every parameter named `n` in `l` carries the value `v`, and at least
one parameter named `n` exists. -/
def UniqueNamed (l : List Param) (n v : String) : Prop :=
  (∃ p ∈ l, p.1 = n) ∧ ∀ p ∈ l, p.1 = n → p.2 = v

theorem uniqueNamed_setParam (l : List Param) (n v : String) :
    UniqueNamed (setParam l n v) n v := by
  refine ⟨⟨(n, v), self_mem_setParam l n v, rfl⟩, ?_⟩
  intro p hp hp1
  rcases mem_of_mem_setParam hp with h | h
  · rw [h]
  · exact absurd hp1 h.2

theorem uniqueNamed_setParam_of_ne {l : List Param} {n v m w : String}
    (hmn : m ≠ n) (h : UniqueNamed l n v) : UniqueNamed (setParam l m w) n v := by
  obtain ⟨⟨p, hp, hp1⟩, hall⟩ := h
  refine ⟨⟨p, mem_setParam_of_ne (by rw [hp1]; exact fun he => hmn he.symm) hp, hp1⟩, ?_⟩
  intro q hq hq1
  rcases mem_of_mem_setParam hq with h2 | h2
  · rw [h2] at hq1
    exact absurd hq1 hmn
  · exact hall q h2.1 hq1

theorem uniqueNamed_perm {l l' : List Param} {n v : String} (h : l.Perm l')
    (hu : UniqueNamed l n v) : UniqueNamed l' n v := by
  obtain ⟨⟨p, hp, hp1⟩, hall⟩ := hu
  exact ⟨⟨p, h.mem_iff.mp hp, hp1⟩, fun q hq hq1 => hall q (h.mem_iff.mpr hq) hq1⟩

theorem getParam_of_uniqueNamed : ∀ {l : List Param} {n v : String},
    UniqueNamed l n v → getParam l n = some v := by
  intro l
  induction l with
  | nil =>
    intro n v h
    obtain ⟨⟨p, hp, _⟩, _⟩ := h
    cases hp
  | cons hd rest ih =>
    intro n v h
    obtain ⟨m, w⟩ := hd
    obtain ⟨⟨p, hp, hp1⟩, hall⟩ := h
    by_cases hm : m = n
    · have hw : w = v := hall (m, w) (List.mem_cons_self _ _) hm
      simp [getParam, hm, hw]
    · have hrest : p ∈ rest := by
        rcases List.mem_cons.mp hp with h1 | h1
        · rw [h1] at hp1
          exact absurd hp1 hm
        · exact h1
      have : UniqueNamed rest n v :=
        ⟨⟨p, hrest, hp1⟩, fun q hq hq1 => hall q (List.mem_cons_of_mem _ hq) hq1⟩
      simp [getParam, hm, ih this]

theorem uniqueNamed_foldl_setParam_of_ne {f g : String → String} {n v : String} :
    ∀ (t : List String) {acc : List Param}, (∀ h ∈ t, f h ≠ n) →
      UniqueNamed acc n v →
      UniqueNamed (t.foldl (fun ps h => setParam ps (f h) (g h)) acc) n v := by
  intro t
  induction t with
  | nil => exact fun _ hu => hu
  | cons hd rest ih =>
    intro acc hne hu
    rw [List.foldl_cons]
    exact ih (fun h hh => hne h (List.mem_cons_of_mem _ hh))
      (uniqueNamed_setParam_of_ne (hne hd (List.mem_cons_self _ _)) hu)

theorem uniqueNamed_foldl_setParam_of_mem {f g : String → String}
    (hf : Function.Injective f) :
    ∀ {t : List String} {acc : List Param} {h0 : String}, h0 ∈ t →
      UniqueNamed (t.foldl (fun ps h => setParam ps (f h) (g h)) acc) (f h0) (g h0) := by
  intro t
  induction t with
  | nil => intro _ _ hmem; cases hmem
  | cons hd rest ih =>
    intro acc h0 hmem
    rw [List.foldl_cons]
    by_cases hr : h0 ∈ rest
    · exact ih hr
    · have hh0 : h0 = hd := by
        rcases List.mem_cons.mp hmem with h1 | h1
        · exact h1
        · exact absurd h1 hr
      subst hh0
      exact uniqueNamed_foldl_setParam_of_ne rest
        (fun h' hh' he => hr (hf he ▸ hh'))
        (uniqueNamed_setParam _ _ _)

theorem string_append_right_inj {s a b : String} (h : s ++ a = s ++ b) : a = b := by
  have h2 : s.data ++ a.data = s.data ++ b.data := by
    rw [← String.data_append, ← String.data_append, h]
  have h3 := List.append_cancel_left h2
  cases a; cases b
  exact congrArg String.mk h3

theorem header_param_name_inj : Function.Injective (fun h : String => "__header-" ++ h) :=
  fun _ _ he => string_append_right_inj he

theorem header_param_name_ne_method (h : String) : "__header-" ++ h ≠ "__method" := by
  intro he
  have hlen : ("__header-" ++ h).data.length = ("__method" : String).data.length := by
    rw [he]
  rw [String.data_append, List.length_append] at hlen
  have h9 : ("__header-" : String).data.length = 9 := rfl
  have h8 : ("__method" : String).data.length = 8 := rfl
  omega


/-- Strict variant of the name order: related pairs have distinct names. -/
def paramLt (p q : Param) : Prop := paramLe p q ∧ p.1 ≠ q.1

instance : IsAntisymm Param paramLt :=
  ⟨fun _ _ h1 h2 => absurd (strLe_antisymm h1.1 h2.1) h1.2⟩

theorem sorted_paramLt {l : List Param} (hs : List.Sorted paramLe l)
    (hn : (l.map Prod.fst).Nodup) : List.Sorted paramLt l := by
  have hne : l.Pairwise (fun p q : Param => p.1 ≠ q.1) := List.pairwise_map.mp hn
  exact hs.and hne

theorem sortParams_perm (l : List Param) : (sortParams l).Perm l :=
  List.perm_insertionSort paramLe l

theorem sortParams_eq_of_perm {l l' : List Param} (h : l.Perm l')
    (hn : (l.map Prod.fst).Nodup) : sortParams l = sortParams l' := by
  have hn' : (l'.map Prod.fst).Nodup := ((h.map Prod.fst).nodup_iff).mp hn
  have hperm : (sortParams l).Perm (sortParams l') :=
    (sortParams_perm l).trans (h.trans (sortParams_perm l').symm)
  have hn1 : ((sortParams l).map Prod.fst).Nodup :=
    (((sortParams_perm l).map Prod.fst).nodup_iff).mpr hn
  have hn2 : ((sortParams l').map Prod.fst).Nodup :=
    (((sortParams_perm l').map Prod.fst).nodup_iff).mpr hn'
  exact List.eq_of_perm_of_sorted (r := paramLt) hperm
    (sorted_paramLt (List.sorted_insertionSort _ _) hn1)
    (sorted_paramLt (List.sorted_insertionSort _ _) hn2)

/-- Strict variant of the JSON entry key order. -/
def jkeyLt (p q : String × Json) : Prop := jkeyLe p q ∧ p.1 ≠ q.1

instance : IsAntisymm (String × Json) jkeyLt :=
  ⟨fun _ _ h1 h2 => absurd (strLe_antisymm h1.1 h2.1) h1.2⟩

theorem sorted_jkeyLt {l : List (String × Json)} (hs : List.Sorted jkeyLe l)
    (hn : (l.map Prod.fst).Nodup) : List.Sorted jkeyLt l := by
  have hne : l.Pairwise (fun p q : String × Json => p.1 ≠ q.1) := List.pairwise_map.mp hn
  exact hs.and hne

theorem sortEntries_eq_of_perm {l l' : List (String × Json)} (h : l.Perm l')
    (hn : (l.map Prod.fst).Nodup) :
    List.insertionSort jkeyLe l = List.insertionSort jkeyLe l' := by
  have hn' : (l'.map Prod.fst).Nodup := ((h.map Prod.fst).nodup_iff).mp hn
  have hperm : (List.insertionSort jkeyLe l).Perm (List.insertionSort jkeyLe l') :=
    (List.perm_insertionSort jkeyLe l).trans (h.trans (List.perm_insertionSort jkeyLe l').symm)
  have hn1 : ((List.insertionSort jkeyLe l).map Prod.fst).Nodup :=
    (((List.perm_insertionSort jkeyLe l).map Prod.fst).nodup_iff).mpr hn
  have hn2 : ((List.insertionSort jkeyLe l').map Prod.fst).Nodup :=
    (((List.perm_insertionSort jkeyLe l').map Prod.fst).nodup_iff).mpr hn'
  exact List.eq_of_perm_of_sorted (r := jkeyLt) hperm
    (sorted_jkeyLt (List.sorted_insertionSort _ _) hn1)
    (sorted_jkeyLt (List.sorted_insertionSort _ _) hn2)

theorem orderedInsert_eq_cons {a : Param} {l : List Param}
    (h : ∀ x ∈ l, paramLe a x) : List.orderedInsert paramLe a l = a :: l := by
  cases l with
  | nil => rfl
  | cons b t =>
    simp [List.orderedInsert, h b (List.mem_cons_self _ _)]

theorem filter_orderedInsert (p : Param → Bool) (a : Param) :
    ∀ {l : List Param}, List.Sorted paramLe l →
      (List.orderedInsert paramLe a l).filter p =
        if p a then List.orderedInsert paramLe a (l.filter p) else l.filter p := by
  intro l
  induction l with
  | nil =>
    intro _
    cases hpa : p a <;> simp [List.orderedInsert, List.filter, hpa]
  | cons b t ih =>
    intro hs
    obtain ⟨hb, hs'⟩ := List.sorted_cons.mp hs
    by_cases hab : paramLe a b
    · rw [List.orderedInsert, if_pos hab]
      cases hpa : p a
      · simp only [List.filter_cons, hpa, Bool.false_eq_true, if_false]
      · cases hpb : p b
        · have hall : ∀ x ∈ t.filter p, paramLe a x := fun x hx =>
            Trans.trans hab (hb x (List.mem_filter.mp hx).1)
          simp only [List.filter_cons, hpa, hpb, Bool.false_eq_true, if_false, if_true]
          rw [orderedInsert_eq_cons hall]
        · have hall : ∀ x ∈ (b :: t).filter p, paramLe a x := fun x hx => by
            rcases List.mem_filter.mp hx with ⟨hx1, _⟩
            rcases List.mem_cons.mp hx1 with h1 | h1
            · exact h1 ▸ hab
            · exact Trans.trans hab (hb x h1)
          simp only [List.filter_cons, hpa, hpb, if_true]
          rw [orderedInsert_eq_cons (by simpa [List.filter_cons, hpb] using hall)]
    · rw [List.orderedInsert, if_neg hab]
      cases hpb : p b
      · simp only [List.filter_cons, hpb, Bool.false_eq_true, if_false]
        rw [ih hs']
      · simp only [List.filter_cons, hpb, if_true]
        rw [ih hs']
        cases hpa : p a
        · simp only [Bool.false_eq_true, if_false]
        · simp only [if_true]
          rw [List.orderedInsert, if_neg hab]

theorem filter_insertionSort (p : Param → Bool) (l : List Param) :
    (List.insertionSort paramLe l).filter p = List.insertionSort paramLe (l.filter p) := by
  induction l with
  | nil => rfl
  | cons a t ih =>
    simp only [List.insertionSort]
    rw [filter_orderedInsert p a (List.sorted_insertionSort _ _)]
    cases hpa : p a
    · simp only [Bool.false_eq_true, if_false, List.filter_cons, hpa, ih]
    · simp only [if_true, List.filter_cons, hpa, List.insertionSort, ih]

theorem revertLoopAux_filter (fuel : Nat) :
    ∀ (params : List Param) (i : Nat),
      (revertLoopAux fuel params i).filter (fun p => ! strStartsWith p.1 "__") =
        params.filter (fun p => ! strStartsWith p.1 "__") := by
  induction fuel with
  | zero => intro params i; rfl
  | succ fuel ih =>
    intro params i
    rw [revertLoopAux]
    split
    case isTrue h =>
      rw [ih]
      rw [revertStep]
      split
      case isTrue hkey =>
        rw [List.filter_filter]
        apply List.filter_congr
        intro x _
        cases hsw : strStartsWith x.1 "__"
        · have hne : x.1 ≠ (params.get ⟨i, h⟩).1 := fun he => by
            rw [he] at hsw
            rw [hkey] at hsw
            cases hsw
          simp only [hsw, Bool.not_false, Bool.true_and]
          exact decide_eq_true hne
        · simp [hsw]
      case isFalse hkey => rfl
    case isFalse h => rfl

theorem revertLoop_filter (params : List Param) :
    (revertLoop params 0).filter (fun p => ! strStartsWith p.1 "__") =
      params.filter (fun p => ! strStartsWith p.1 "__") :=
  revertLoopAux_filter _ params 0

theorem setParam_of_not_mem {l : List Param} {n : String} (v : String)
    (h : n ∉ l.map Prod.fst) : setParam l n v = l ++ [(n, v)] := by
  induction l with
  | nil => rfl
  | cons hd rest ih =>
    obtain ⟨m, w⟩ := hd
    have hm : m ≠ n := fun he => h (by simp [he])
    rw [setParam, if_neg hm, ih (fun hmem => h (List.mem_cons_of_mem _ hmem))]
    rfl

theorem setParam_append_left {l e : List Param} {n v : String}
    (h : n ∉ l.map Prod.fst) : setParam (l ++ e) n v = l ++ setParam e n v := by
  induction l with
  | nil => rfl
  | cons hd rest ih =>
    obtain ⟨m, w⟩ := hd
    have hm : m ≠ n := fun he => h (by simp [he])
    rw [List.cons_append, setParam, if_neg hm,
      ih (fun hmem => h (List.mem_cons_of_mem _ hmem))]
    rfl

theorem setParam_eq_map_of_nodup {l : List Param} {n : String} (v : String)
    (hn : (l.map Prod.fst).Nodup) (hmem : n ∈ l.map Prod.fst) :
    setParam l n v = l.map (fun p => if p.1 = n then (n, v) else p) := by
  induction l with
  | nil => cases hmem
  | cons hd rest ih =>
    obtain ⟨m, w⟩ := hd
    rw [List.map_cons] at hn
    by_cases hm : m = n
    · subst hm
      have hnm : m ∉ rest.map Prod.fst := (List.nodup_cons.mp hn).1
      have hfil : rest.filter (fun p => p.1 ≠ m) = rest :=
        List.filter_eq_self.mpr (fun p hp => by
          have : p.1 ≠ m := fun he => hnm (he ▸ List.mem_map_of_mem Prod.fst hp)
          simpa using this)
      have hmap : rest.map (fun p => if p.1 = m then (m, v) else p) = rest := by
        have := List.map_congr_left (l := rest)
          (f := fun p : Param => if p.1 = m then (m, v) else p) (g := id)
          (fun p hp => by
            have : p.1 ≠ m := fun he => hnm (he ▸ List.mem_map_of_mem Prod.fst hp)
            simp [this])
        simpa using this
      rw [setParam, if_pos rfl, hfil, List.map_cons, hmap]
      simp
    · have hmem' : n ∈ rest.map Prod.fst := by
        rcases List.mem_cons.mp hmem with h1 | h1
        · exact absurd h1.symm hm
        · exact h1
      rw [setParam, if_neg hm, ih (List.nodup_cons.mp hn).2 hmem', List.map_cons]
      simp [hm]

theorem setParam_perm {l l' : List Param} {n v : String} (h : l.Perm l')
    (hn : (l.map Prod.fst).Nodup) : (setParam l n v).Perm (setParam l' n v) := by
  have hn' : (l'.map Prod.fst).Nodup := ((h.map Prod.fst).nodup_iff).mp hn
  by_cases hmem : n ∈ l.map Prod.fst
  · have hmem' : n ∈ l'.map Prod.fst := (h.map Prod.fst).mem_iff.mp hmem
    rw [setParam_eq_map_of_nodup v hn hmem, setParam_eq_map_of_nodup v hn' hmem']
    exact h.map _
  · have hmem' : n ∉ l'.map Prod.fst := fun hc => hmem ((h.map Prod.fst).mem_iff.mpr hc)
    rw [setParam_of_not_mem v hmem, setParam_of_not_mem v hmem']
    exact h.append_right _

theorem setParam_names_nodup {l : List Param} {n v : String}
    (hn : (l.map Prod.fst).Nodup) : ((setParam l n v).map Prod.fst).Nodup := by
  by_cases hmem : n ∈ l.map Prod.fst
  · rw [setParam_eq_map_of_nodup v hn hmem]
    have hnames : (l.map (fun p => if p.1 = n then (n, v) else p)).map Prod.fst
        = l.map Prod.fst := by
      rw [List.map_map]
      exact List.map_congr_left (fun p _ => by
        by_cases hp : p.1 = n <;> simp [hp, Function.comp])
    rw [hnames]
    exact hn
  · rw [setParam_of_not_mem v hmem, List.map_append, List.nodup_append]
    refine ⟨hn, by simp, ?_⟩
    intro a ha hb
    simp only [List.map_cons, List.map_nil, List.mem_singleton] at hb
    exact hmem (hb ▸ ha)

theorem foldl_setParam_perm {f g : String → String} :
    ∀ (t : List String) {l l' : List Param}, l.Perm l' → (l.map Prod.fst).Nodup →
      (t.foldl (fun ps h => setParam ps (f h) (g h)) l).Perm
        (t.foldl (fun ps h => setParam ps (f h) (g h)) l') := by
  intro t
  induction t with
  | nil => exact fun h _ => h
  | cons hd rest ih =>
    intro l l' h hn
    rw [List.foldl_cons, List.foldl_cons]
    exact ih (setParam_perm h hn) (setParam_names_nodup hn)

theorem foldl_setParam_nodup {f g : String → String} :
    ∀ (t : List String) {l : List Param}, (l.map Prod.fst).Nodup →
      ((t.foldl (fun ps h => setParam ps (f h) (g h)) l).map Prod.fst).Nodup := by
  intro t
  induction t with
  | nil => exact fun h => h
  | cons hd rest ih =>
    intro l hn
    rw [List.foldl_cons]
    exact ih (setParam_names_nodup hn)

/-! Lookup of engine-reserved parameters inside a built cache key. -/

theorem buildCacheKeyRequest_getParam_method {request : Request} {keyHeaders : List String}
    {k : KeyRequest} (hk : buildCacheKeyRequest request keyHeaders = some k) :
    getParam k.url.searchParams "__method" = some request.method := by
  cases hser : serializeRequestBodyForKey request with
  | none => rw [buildCacheKeyRequest, hser] at hk; cases hk
  | some body =>
    rw [buildCacheKeyRequest, hser] at hk
    have hk' := Option.some.inj hk
    have hparams : k.url.searchParams =
        sortParams ((keyHeaders.foldl
          (fun ps keyHeader => setParam ps ("__header-" ++ keyHeader)
            (jsStringOrNone (headersGet request.headers keyHeader)))
          (setParam (setParam request.searchParams "__body" (jsOrNone body))
            "__method" request.method))) := by
      rw [← hk']
    rw [hparams]
    apply getParam_of_uniqueNamed
    apply uniqueNamed_perm (sortParams_perm _).symm
    exact uniqueNamed_foldl_setParam_of_ne
      (f := fun h => "__header-" ++ h)
      (g := fun h => jsStringOrNone (headersGet request.headers h))
      keyHeaders (fun h _ => header_param_name_ne_method h)
      (uniqueNamed_setParam _ _ _)

/-- C10: every cache-key request built by `buildCacheKeyRequest` has
HTTP method GET regardless of the original request's method (the
`Request` constructor is called without a `method` option), and the
original method survives only in the `__method` query parameter of the
key URL — under which GET-method key requests `getResponse` stores and
matches responses. -/
theorem buildCacheKeyRequest_method_is_get (request : Request) (keyHeaders : List String)
    (k : KeyRequest) (hk : buildCacheKeyRequest request keyHeaders = some k) :
    k.method = "GET" ∧ getParam k.url.searchParams "__method" = some request.method := by
  refine ⟨?_, buildCacheKeyRequest_getParam_method hk⟩
  cases hser : serializeRequestBodyForKey request with
  | none => rw [buildCacheKeyRequest, hser] at hk; cases hk
  | some body =>
    rw [buildCacheKeyRequest, hser] at hk
    have hk' := Option.some.inj hk
    rw [← hk']

/-- Witness for C10: a POST request yields a GET-method key request
whose `__method` parameter is `POST`. -/
theorem buildCacheKeyRequest_method_is_get_witness :
    (buildCacheKeyRequest
        { origin := "https://x", pathname := "/p", searchParams := []
          method := "POST", headers := [], body := { raw := "z", json := none } } [] =
      some
        { url := { origin := "https://x", pathname := "p"
                   searchParams := [("__body", "z"), ("__method", "POST")] }
          method := "GET", headers := [] }) ∧
    ({ url := { origin := "https://x", pathname := "p"
                searchParams := [("__body", "z"), ("__method", "POST")] }
       method := "GET", headers := [] } : KeyRequest).method = "GET" ∧
    getParam [("__body", "z"), ("__method", "POST")] "__method" = some "POST" := by
  have h := buildCacheKeyRequest_method_is_get
    { origin := "https://x", pathname := "/p", searchParams := []
      method := "POST", headers := [], body := { raw := "z", json := none } } []
    { url := { origin := "https://x", pathname := "p"
               searchParams := [("__body", "z"), ("__method", "POST")] }
      method := "GET", headers := [] } (by decide)
  exact ⟨by decide, h.1, h.2⟩

/-- Counterexample to C7: when the fetcher fails, the in-flight state is
released and the error is thrown to the initiating caller, but the
registered deferred — the pending result joined awaiters hold — is
neither rejected nor resolved, so the error is not propagated to
them. -/
theorem getDedupedResponse_failure_leaves_joiner_pending :
    (getDedupedResponse [] "k" (.error "boom")).deferredRejected = false ∧
    (getDedupedResponse [] "k" (.error "boom")).deferredResolved = false ∧
    (getDedupedResponse [] "k" (.error "boom")).inFlightReleased = true ∧
    (getDedupedResponse [] "k" (.error "boom")).heartbeatEnded = true ∧
    (getDedupedResponse [] "k" (.error "boom")).callerResult = some (.error "boom") :=
  ⟨rfl, rfl, rfl, rfl, rfl⟩

/-- C7 (amended): when the fetcher of a fresh `getDedupedResponse` call
fails, the error is logged and re-thrown to the initiating caller and
the in-flight state is released (entry removed, heartbeat ended, timeout
cleared), but the shared deferred is never settled, so callers that
joined the in-flight request are left pending. -/
theorem getDedupedResponse_failure_amended (inFlight : List String) (key e : String)
    (h : inFlight.contains key = false) :
    getDedupedResponse inFlight key (.error e) =
      { joinedExisting := false, callerResult := some (.error e)
        deferredResolved := false, deferredRejected := false
        inFlightReleased := true, heartbeatEnded := true
        postedResponseReady := false, timeoutCleared := true } := by
  have h' : key ∉ inFlight := by simpa using h
  simp [getDedupedResponse, h']

/-- Witness for the amended C7. -/
theorem getDedupedResponse_failure_amended_witness :
    ([] : List String).contains "k" = false ∧
    getDedupedResponse [] "k" (.error "x") =
      { joinedExisting := false, callerResult := some (.error "x")
        deferredResolved := false, deferredRejected := false
        inFlightReleased := true, heartbeatEnded := true
        postedResponseReady := false, timeoutCleared := true } :=
  ⟨rfl, getDedupedResponse_failure_amended [] "k" "x" rfl⟩

/-- Counterexample to C8: with a truthy `cacheTTL`, a persistence
failure during `set` leaves the in-memory config updated but `onSet`
does not fire and the rejection surfaces to `set`'s caller (nothing logs
or swallows it). -/
theorem storeSet_persist_failure_counterexample :
    (storeSet {} (some { hosts := [], cacheTTL := some 60000 }) false 500).firedOnSet
        = false ∧
    (storeSet {} (some { hosts := [], cacheTTL := some 60000 }) false 500).persistFailed
        = true ∧
    (storeSet {} (some { hosts := [], cacheTTL := some 60000 }) false 500).state.current
        = some { hosts := [], cacheTTL := some 60000 } :=
  ⟨rfl, rfl, rfl⟩

/-- C8 (amended): a failure of durable persistence during `set` (with a
truthy `cacheTTL`) leaves the in-memory current policy updated — the
assignment precedes the await — but aborts the rest of `set`: no cleanup
timer is scheduled, `onSet` does not fire, and the rejection propagates
to `set`'s caller instead of being logged and swallowed. -/
theorem storeSet_persist_failure_amended (st : StoreState) (cfg : CacheConfig) (now : Nat)
    (h : jsTruthyNat cfg.cacheTTL = true) :
    storeSet st (some cfg) false now =
      { state := { current := some cfg, persisted := st.persisted, cleanupDelay := none }
        firedOnSet := false, firedOnReset := false, persistFailed := true } := by
  simp [storeSet, h]

/-- Witness for the amended C8. -/
theorem storeSet_persist_failure_amended_witness :
    jsTruthyNat (some 1 : Option Nat) = true ∧
    storeSet {} (some { hosts := [], cacheTTL := some 1 }) false 7 =
      { state := { current := some { hosts := [], cacheTTL := some 1 }
                   persisted := none, cleanupDelay := none }
        firedOnSet := false, firedOnReset := false, persistFailed := true } :=
  ⟨rfl, storeSet_persist_failure_amended {} { hosts := [], cacheTTL := some 1 } 7 rfl⟩

/-- Counterexample to C5: two deliveries whose JSON is structurally
equal but differently key-ordered both fire `onReceive` — the client
compares plain `JSON.stringify` output, which is order-sensitive, not a
canonical form. -/
theorem syncClient_fires_twice_on_reordered_delivery :
    (triggerReceiveNewCacheConfigIfHasChanges true none
        (.obj [("a", .num 1), ("b", .num 2)])).2 = true ∧
    (triggerReceiveNewCacheConfigIfHasChanges true
        (triggerReceiveNewCacheConfigIfHasChanges true none
          (.obj [("a", .num 1), ("b", .num 2)])).1
        (.obj [("b", .num 2), ("a", .num 1)])).2 = true ∧
    jsonStructEq (.obj [("a", .num 1), ("b", .num 2)])
      (.obj [("b", .num 2), ("a", .num 1)]) :=
  ⟨by decide, by decide, by decide⟩

/-- C5 (amended): the sync client invokes `onReceive` for a received
policy iff its `JSON.stringify` text differs from that of the last
delivered value; re-deliveries with identical serialization are
collapsed to a single `onReceive`, but structurally equal deliveries
with different key order are not. -/
theorem syncClient_collapses_identical_serializations (c c' : Json)
    (h : jsonStringify c = jsonStringify c')
    (h0 : jsonStringify c ≠ jsonStringify Json.null) :
    (triggerReceiveNewCacheConfigIfHasChanges true none c).2 = true ∧
    (triggerReceiveNewCacheConfigIfHasChanges true
        (triggerReceiveNewCacheConfigIfHasChanges true none c).1 c').2 = false := by
  have hinner : triggerReceiveNewCacheConfigIfHasChanges true none c = (some c, true) := by
    simp [triggerReceiveNewCacheConfigIfHasChanges, h0]
  refine ⟨by rw [hinner], ?_⟩
  rw [hinner]
  simp [triggerReceiveNewCacheConfigIfHasChanges, h.symm]

/-- Witness for the amended C5. -/
theorem syncClient_collapses_identical_serializations_witness :
    jsonStringify (.obj [("a", .num 1)]) = jsonStringify (.obj [("a", .num 1)]) ∧
    jsonStringify (.obj [("a", .num 1)]) ≠ jsonStringify Json.null ∧
    ((triggerReceiveNewCacheConfigIfHasChanges true none (.obj [("a", .num 1)])).2 = true ∧
      (triggerReceiveNewCacheConfigIfHasChanges true
          (triggerReceiveNewCacheConfigIfHasChanges true none (.obj [("a", .num 1)])).1
          (.obj [("a", .num 1)])).2 = false) :=
  ⟨rfl, by decide,
    syncClient_collapses_identical_serializations (.obj [("a", .num 1)])
      (.obj [("a", .num 1)]) rfl (by decide)⟩

/-- C1 (code bug): at the failing input the lookup path of `getResponse`
serves a stored entry that the specified freshness decision (and the
repository's own documentation, which states
`freshness = response.timestamp + ttl > Date.now()`) classifies as
stale: the resolved settings carry `ttl = 100` and no `lastModified`,
the entry's stored timestamp is `0` and `now = 1000`, so the spec rule
yields stale (`0 + 100 > 1000` is false), yet the code — whose test is
merely `cachedTimestamp <= Date.now()` and never consults `ttl` or
`lastModified` — returns the cached response without a network fetch
instead of deleting the entry and fetching. -/
theorem getResponse_serves_spec_stale_entry :
    getResponse
        { origin := "https://api.example", pathname := "/users" }
        "x-cache-timestamp"
        (some { hosts := [("https://api.example",
          { endpoints := [("users", { methods := [("GET", { ttl := some 100 })] })] })] })
        [({ url := { origin := "https://api.example", pathname := "users"
                     searchParams := [("__body", "none"), ("__method", "GET")] }
            method := "GET", headers := [] },
          { status := 200, body := "cached", headers := [("x-cache-timestamp", "0")] })]
        1000
      = some (.servedFromCache
          { status := 200, body := "cached", headers := [("x-cache-timestamp", "0")] }) ∧
    resolveRequestSettings
        (some { hosts := [("https://api.example",
          { endpoints := [("users", { methods := [("GET", { ttl := some 100 })] })] })] })
        none "https://api.example" "/users" "GET"
      = some { lastModified := none, ttl := some 100, keyHeaders := [], prefetch := .never } ∧
    specFreshness { lastModified := none, ttl := some 100, keyHeaders := [], prefetch := .never }
        0 1000 = some false :=
  ⟨by decide, by decide, by decide⟩

/-- Counterexample to C2: the stale sweep keeps an entry that the
specified freshness test deletes — the resolved settings carry
`ttl = 100` and no `lastModified`, the stored timestamp is `0`, so under
the spec's ttl rule the entry is stale at any `now ≥ 100` (e.g. 1000),
yet `deleteStaleEntries` retains it because it only ever compares
against `lastModified`. -/
theorem deleteStaleEntries_keeps_ttl_expired_entry :
    deleteStaleEntries
        (some { hosts := [("https://api.example",
          { endpoints := [("users", { methods := [("GET", { ttl := some 100 })] })] })] })
        "x-cache-timestamp"
        [({ url := { origin := "https://api.example", pathname := "users"
                     searchParams := [("__body", "none"), ("__method", "GET")] }
            method := "GET", headers := [] },
          { status := 200, body := "cached", headers := [("x-cache-timestamp", "0")] })]
      = [({ url := { origin := "https://api.example", pathname := "users"
                     searchParams := [("__body", "none"), ("__method", "GET")] }
            method := "GET", headers := [] },
          { status := 200, body := "cached", headers := [("x-cache-timestamp", "0")] })] ∧
    resolveRequestSettings
        (some { hosts := [("https://api.example",
          { endpoints := [("users", { methods := [("GET", { ttl := some 100 })] })] })] })
        none "https://api.example" "users" "GET"
      = some { lastModified := none, ttl := some 100, keyHeaders := [], prefetch := .never } ∧
    specFreshness { lastModified := none, ttl := some 100, keyHeaders := [], prefetch := .never }
        0 1000 = some false :=
  ⟨by decide, by decide, by decide⟩

/-- C2 (amended): `deleteStaleEntries` reverses every stored key,
resolves its settings, and applies only the `lastModified` rule: an
entry with resolvable settings is deleted iff its timestamp header is
unparsable (logged and deleted) or its parsed timestamp is smaller than
the merged `lastModified`; entries whose settings lack `lastModified`
are kept regardless of `ttl`, and entries with no resolvable settings
are skipped. -/
theorem deleteStaleEntries_amended (current : Option CacheConfig) (hdr : String)
    (cache : List (KeyRequest × StoredResponse)) (k : KeyRequest) (r : StoredResponse)
    (hmem : (k, r) ∈ cache) :
    ((k, r) ∈ deleteStaleEntries current hdr cache ↔
      (match resolveRequestSettings current none (revertCacheKeyRequest k).url.origin
          (revertCacheKeyRequest k).url.pathname (revertCacheKeyRequest k).method with
        | none => True
        | some s =>
          match jsToNumber (headersGet r.headers hdr) with
          | none => False
          | some t =>
            match s.lastModified with
            | none => True
            | some lm => lm ≤ t)) := by
  have hstep : (k, r) ∈ deleteStaleEntries current hdr cache ↔
      shouldDeleteEntry current hdr k r = false := by
    rw [deleteStaleEntries, List.mem_filter]
    simp [hmem]
  rw [hstep, shouldDeleteEntry]
  cases hres : resolveRequestSettings current none (revertCacheKeyRequest k).url.origin
      (revertCacheKeyRequest k).url.pathname (revertCacheKeyRequest k).method with
  | none => simp
  | some s =>
    cases ht : jsToNumber (headersGet r.headers hdr) with
    | none => simp
    | some t =>
      cases hlm : s.lastModified with
      | none => simp [hlm]
      | some lm => simp [hlm, Nat.not_lt]

/-- Witness for the amended C2: a concrete entry with a `ttl`-only
config and a parsable timestamp is kept by the sweep. -/
theorem deleteStaleEntries_amended_witness :
    (({ url := { origin := "https://h", pathname := "p"
                 searchParams := [("__body", "none"), ("__method", "GET")] }
        method := "GET", headers := [] } : KeyRequest),
     ({ status := 200, body := "", headers := [("ts", "0")] } : StoredResponse)) ∈
      deleteStaleEntries
        (some { hosts := [("https://h",
          { endpoints := [("p", { methods := [("GET", { ttl := some 5 })] })] })] })
        "ts"
        [({ url := { origin := "https://h", pathname := "p"
                     searchParams := [("__body", "none"), ("__method", "GET")] }
            method := "GET", headers := [] },
          { status := 200, body := "", headers := [("ts", "0")] })] :=
  (deleteStaleEntries_amended _ "ts" _ _ _ (List.mem_singleton.mpr rfl)).mpr (by trivial)

/-! Support lemmas for key reversal. -/

theorem strStartsWith_header_param (h : String) :
    strStartsWith ("__header-" ++ h) "__" = true := by
  apply decide_eq_true
  show ("__" : String).toList <+: ("__header-" ++ h).toList
  refine ⟨("header-" : String).data ++ h.data, ?_⟩
  show ("__" : String).data ++ (("header-" : String).data ++ h.data)
      = ("__header-" ++ h).data
  rw [String.data_append]
  rfl

theorem sortParams_filter (p : Param → Bool) (l : List Param) :
    (sortParams l).filter p = sortParams (l.filter p) :=
  filter_insertionSort p l

theorem foldl_setParam_split {f g : String → String}
    (hf : ∀ h, strStartsWith (f h) "__" = true) :
    ∀ (t : List String) {l e : List Param},
      (∀ p ∈ l, strStartsWith p.1 "__" = false) →
      (∀ p ∈ e, strStartsWith p.1 "__" = true) →
      ∃ e', t.foldl (fun ps h => setParam ps (f h) (g h)) (l ++ e) = l ++ e' ∧
        ∀ p ∈ e', strStartsWith p.1 "__" = true := by
  intro t
  induction t with
  | nil =>
    intro l e _ he
    exact ⟨e, rfl, he⟩
  | cons hd rest ih =>
    intro l e hl he
    rw [List.foldl_cons]
    have hn : f hd ∉ l.map Prod.fst := by
      intro hmem
      obtain ⟨p, hp, hp1⟩ := List.mem_map.mp hmem
      have h1 := hl p hp
      rw [hp1, hf hd] at h1
      cases h1
    rw [setParam_append_left hn]
    apply ih hl
    intro p hp
    rcases mem_of_mem_setParam hp with h1 | h1
    · rw [h1]
      exact hf hd
    · exact he p h1.1

/-- Counterexample to C4: for the original POST request to
`https://h/p?b=2&a=1`, reverting its built cache key yields method `GET`
(not `POST`) and the parameter list
`[("__method", "POST"), ("a", "1"), ("b", "2")]` — the original
parameters come back sorted rather than in their original order, and the
`__method` parameter survives reversal because the delete-while-iterating
loop skips the entry that slides into a deleted slot. -/
theorem revertCacheKeyRequest_not_left_inverse :
    buildCacheKeyRequest
        { origin := "https://h", pathname := "/p", searchParams := [("b", "2"), ("a", "1")]
          method := "POST", headers := [], body := { raw := "", json := none } } [] =
      some
        { url := { origin := "https://h", pathname := "p"
                   searchParams := [("__body", "none"), ("__method", "POST"),
                     ("a", "1"), ("b", "2")] }
          method := "GET", headers := [] } ∧
    revertCacheKeyRequest
        { url := { origin := "https://h", pathname := "p"
                   searchParams := [("__body", "none"), ("__method", "POST"),
                     ("a", "1"), ("b", "2")] }
          method := "GET", headers := [] } =
      { url := { origin := "https://h", pathname := "p"
                 searchParams := [("__method", "POST"), ("a", "1"), ("b", "2")] }
        method := "GET", headers := [] } ∧
    ("GET" : String) ≠ "POST" ∧
    ([("__method", "POST"), ("a", "1"), ("b", "2")] : List Param) ≠ [("b", "2"), ("a", "1")] :=
  ⟨by decide, by decide, by decide, by decide⟩

/-- C4 (amended): key reversal is not a full left inverse. For an
original request without `__`-prefixed parameters, the reverted key
request keeps the key's origin and normalized pathname and the key
request's own method `GET` (the original method is not restored), and
its non-`__` parameters are exactly the original parameters stably
sorted by name (the original order is not restored); `__`-prefixed
parameters are only partially removed, since the deletion loop iterates
over the list it mutates and skips the entry following each deletion. -/
theorem revertCacheKeyRequest_amended (request : Request) (keyHeaders : List String)
    (k : KeyRequest) (hk : buildCacheKeyRequest request keyHeaders = some k)
    (hO : ∀ p ∈ request.searchParams, strStartsWith p.1 "__" = false) :
    (revertCacheKeyRequest k).url.origin = request.origin ∧
    (revertCacheKeyRequest k).url.pathname = getNormalizedPathname request.pathname ∧
    (revertCacheKeyRequest k).method = "GET" ∧
    ((revertCacheKeyRequest k).url.searchParams).filter
        (fun p => ! strStartsWith p.1 "__") = sortParams request.searchParams := by
  cases hser : serializeRequestBodyForKey request with
  | none =>
    rw [buildCacheKeyRequest, hser] at hk
    cases hk
  | some body =>
    rw [buildCacheKeyRequest, hser] at hk
    have hk' := Option.some.inj hk
    subst hk'
    refine ⟨rfl, rfl, rfl, ?_⟩
    simp only [revertCacheKeyRequest]
    rw [revertLoop_filter]
    have hbody : strStartsWith "__body" "__" = true := by decide
    have h0 : setParam request.searchParams "__body" (jsOrNone body)
        = request.searchParams ++ [("__body", jsOrNone body)] := by
      apply setParam_of_not_mem
      intro hmem
      obtain ⟨p, hp, hp1⟩ := List.mem_map.mp hmem
      have h1 := hO p hp
      rw [hp1, hbody] at h1
      cases h1
    have hmeth : ("__method" : String) ∉
        (request.searchParams ++ [("__body", jsOrNone body)]).map Prod.fst := by
      intro hmem
      rw [List.map_append] at hmem
      rcases List.mem_append.mp hmem with h1 | h1
      · obtain ⟨p, hp, hp1⟩ := List.mem_map.mp h1
        have h2 := hO p hp
        rw [hp1] at h2
        have : strStartsWith "__method" "__" = true := by decide
        rw [this] at h2
        cases h2
      · simp at h1
    have h1 : setParam (request.searchParams ++ [("__body", jsOrNone body)])
          "__method" request.method
        = request.searchParams ++
          [("__body", jsOrNone body), ("__method", request.method)] := by
      rw [setParam_of_not_mem _ hmeth, List.append_assoc]
      rfl
    obtain ⟨extras, hsplit, hex⟩ :=
      foldl_setParam_split
        (f := fun h => "__header-" ++ h)
        (g := fun h => jsStringOrNone (headersGet request.headers h))
        (fun h => strStartsWith_header_param h)
        keyHeaders (l := request.searchParams)
        (e := [("__body", jsOrNone body), ("__method", request.method)])
        hO
        (by
          intro p hp
          rcases List.mem_cons.mp hp with h2 | h2
          · rw [h2]
            exact hbody
          · rcases List.mem_cons.mp h2 with h3 | h3
            · rw [h3]
              show strStartsWith "__method" "__" = true
              decide
            · cases h3)
    rw [h0, h1, hsplit, sortParams_filter, List.filter_append]
    have hl : request.searchParams.filter (fun p => ! strStartsWith p.1 "__")
        = request.searchParams :=
      List.filter_eq_self.mpr (fun p hp => by simp [hO p hp])
    have hr : extras.filter (fun p => ! strStartsWith p.1 "__") = [] :=
      List.filter_eq_nil_iff.mpr (fun p hp => by simp [hex p hp])
    rw [hl, hr, List.append_nil]

/-- Witness for the amended C4. -/
theorem revertCacheKeyRequest_amended_witness :
    (buildCacheKeyRequest
        { origin := "https://h", pathname := "/p/", searchParams := [("b", "2"), ("a", "1")]
          method := "GET", headers := [], body := {} } [] =
      some
        { url := { origin := "https://h", pathname := "p"
                   searchParams := [("__body", "none"), ("__method", "GET"),
                     ("a", "1"), ("b", "2")] }
          method := "GET", headers := [] }) ∧
    (∀ p ∈ ([("b", "2"), ("a", "1")] : List Param), strStartsWith p.1 "__" = false) ∧
    ((revertCacheKeyRequest
        { url := { origin := "https://h", pathname := "p"
                   searchParams := [("__body", "none"), ("__method", "GET"),
                     ("a", "1"), ("b", "2")] }
          method := "GET", headers := [] }).url.origin = "https://h" ∧
      (revertCacheKeyRequest
        { url := { origin := "https://h", pathname := "p"
                   searchParams := [("__body", "none"), ("__method", "GET"),
                     ("a", "1"), ("b", "2")] }
          method := "GET", headers := [] }).url.pathname = getNormalizedPathname "/p/" ∧
      (revertCacheKeyRequest
        { url := { origin := "https://h", pathname := "p"
                   searchParams := [("__body", "none"), ("__method", "GET"),
                     ("a", "1"), ("b", "2")] }
          method := "GET", headers := [] }).method = "GET" ∧
      ((revertCacheKeyRequest
        { url := { origin := "https://h", pathname := "p"
                   searchParams := [("__body", "none"), ("__method", "GET"),
                     ("a", "1"), ("b", "2")] }
          method := "GET", headers := [] }).url.searchParams).filter
          (fun p => ! strStartsWith p.1 "__") = sortParams [("b", "2"), ("a", "1")]) :=
  ⟨by decide, by decide,
    revertCacheKeyRequest_amended
      { origin := "https://h", pathname := "/p/", searchParams := [("b", "2"), ("a", "1")]
        method := "GET", headers := [], body := {} } []
      { url := { origin := "https://h", pathname := "p"
                 searchParams := [("__body", "none"), ("__method", "GET"),
                   ("a", "1"), ("b", "2")] }
        method := "GET", headers := [] }
      (by decide) (by decide)⟩

/-! Support lemmas for cache-key stability. -/

theorem headersGet_perm_eq {hs1 hs2 : List (String × String)} (hp : hs1.Perm hs2)
    (hn : (hs1.map (fun p => strToLower p.1)).Nodup) (n : String) :
    headersGet hs1 n = headersGet hs2 n := by
  have hfil : hs1.filter (fun p => strToLower p.1 == strToLower n)
      = hs2.filter (fun p => strToLower p.1 == strToLower n) := by
    have hpf := hp.filter (fun p => strToLower p.1 == strToLower n)
    cases hfl : hs1.filter (fun p => strToLower p.1 == strToLower n) with
    | nil =>
      rw [hfl] at hpf
      exact (hpf.symm.eq_nil).symm
    | cons a t =>
      cases t with
      | nil =>
        rw [hfl] at hpf
        exact (List.perm_singleton.mp hpf.symm).symm
      | cons b t2 =>
        exfalso
        have hsub : (a :: b :: t2).Sublist hs1 := by
          rw [← hfl]
          exact List.filter_sublist hs1
        have hmapsub := hsub.map (fun p => strToLower p.1)
        have hnd := List.Nodup.sublist hmapsub hn
        have hane : strToLower a.1 ≠ strToLower b.1 := by
          have := (List.nodup_cons.mp hnd).1
          intro he
          exact this (by simp [he])
        have hamem : a ∈ hs1.filter (fun p => strToLower p.1 == strToLower n) := by
          rw [hfl]; exact List.mem_cons_self _ _
        have hbmem : b ∈ hs1.filter (fun p => strToLower p.1 == strToLower n) := by
          rw [hfl]; exact List.mem_cons_of_mem _ (List.mem_cons_self _ _)
        have ha := (List.mem_filter.mp hamem).2
        have hb := (List.mem_filter.mp hbmem).2
        rw [beq_iff_eq] at ha hb
        exact hane (ha.trans hb.symm)
  rw [headersGet, headersGet, hfil]

theorem buildCacheKeyRequest_getParam_header {request : Request} {keyHeaders : List String}
    {h0 : String} {k : KeyRequest} (hmem : h0 ∈ keyHeaders)
    (hk : buildCacheKeyRequest request keyHeaders = some k) :
    getParam k.url.searchParams ("__header-" ++ h0)
      = some (jsStringOrNone (headersGet request.headers h0)) := by
  cases hser : serializeRequestBodyForKey request with
  | none => rw [buildCacheKeyRequest, hser] at hk; cases hk
  | some body =>
    rw [buildCacheKeyRequest, hser] at hk
    have hk' := Option.some.inj hk
    have hparams : k.url.searchParams =
        sortParams ((keyHeaders.foldl
          (fun ps keyHeader => setParam ps ("__header-" ++ keyHeader)
            (jsStringOrNone (headersGet request.headers keyHeader)))
          (setParam (setParam request.searchParams "__body" (jsOrNone body))
            "__method" request.method))) := by
      rw [← hk']
    rw [hparams]
    apply getParam_of_uniqueNamed
    apply uniqueNamed_perm (sortParams_perm _).symm
    exact uniqueNamed_foldl_setParam_of_mem
      (f := fun h => "__header-" ++ h)
      (g := fun h => jsStringOrNone (headersGet request.headers h))
      header_param_name_inj hmem

theorem buildCacheKey_json_body_perm (base : Request) (keyHeaders : List String)
    (raw1 raw2 : String) (e1 e2 : List (String × Json))
    (hct : strContains ((headersGet base.headers "content-type").getD "")
      "application/json" = true)
    (hp : e1.Perm e2) (hn : (e1.map Prod.fst).Nodup) :
    buildCacheKeyRequest { base with body := { raw := raw1, json := some (.obj e1) } }
        keyHeaders
      = buildCacheKeyRequest { base with body := { raw := raw2, json := some (.obj e2) } }
        keyHeaders := by
  have hbody : sortedJsonBodyString (.obj e1) = sortedJsonBodyString (.obj e2) := by
    rw [sortedJsonBodyString, sortedJsonBodyString]
    have h1 : jsObjectEntries (.obj e1) = e1 := rfl
    have h2 : jsObjectEntries (.obj e2) = e2 := rfl
    rw [h1, h2, sortEntries_eq_of_perm hp hn]
  have hser : serializeRequestBodyForKey
        { base with body := { raw := raw1, json := some (.obj e1) } }
      = serializeRequestBodyForKey
        { base with body := { raw := raw2, json := some (.obj e2) } } := by
    rw [serializeRequestBodyForKey, serializeRequestBodyForKey]
    by_cases hm : base.method = "GET" ∨ base.method = "HEAD"
    · simp [hm]
    · simp only [hm, if_false]
      simp only [hct, if_true, jsIsTruthyObject, hbody]
  rw [buildCacheKeyRequest, buildCacheKeyRequest, hser]

theorem buildCacheKey_query_perm (base : Request) (keyHeaders : List String)
    (p1 p2 : List Param) (hp : p1.Perm p2) (hn : (p1.map Prod.fst).Nodup) :
    buildCacheKeyRequest { base with searchParams := p1 } keyHeaders
      = buildCacheKeyRequest { base with searchParams := p2 } keyHeaders := by
  have hser : serializeRequestBodyForKey { base with searchParams := p1 }
      = serializeRequestBodyForKey { base with searchParams := p2 } := rfl
  rw [buildCacheKeyRequest, buildCacheKeyRequest, hser]
  cases hs : serializeRequestBodyForKey { base with searchParams := p2 } with
  | none => rfl
  | some body =>
    have hparams :
        sortParams (keyHeaders.foldl
          (fun ps keyHeader => setParam ps ("__header-" ++ keyHeader)
            (jsStringOrNone (headersGet base.headers keyHeader)))
          (setParam (setParam p1 "__body" (jsOrNone body)) "__method" base.method))
        = sortParams (keyHeaders.foldl
          (fun ps keyHeader => setParam ps ("__header-" ++ keyHeader)
            (jsStringOrNone (headersGet base.headers keyHeader)))
          (setParam (setParam p2 "__body" (jsOrNone body)) "__method" base.method)) := by
      apply sortParams_eq_of_perm
      · exact foldl_setParam_perm keyHeaders
          (setParam_perm (setParam_perm hp hn) (setParam_names_nodup hn))
          (setParam_names_nodup (setParam_names_nodup hn))
      · exact foldl_setParam_nodup keyHeaders
          (setParam_names_nodup (setParam_names_nodup hn))
    simp only []
    rw [hparams]

theorem buildCacheKey_header_perm (base : Request) (keyHeaders : List String)
    (h1 h2 : List (String × String)) (hp : h1.Perm h2)
    (hn : (h1.map (fun p => strToLower p.1)).Nodup) :
    (buildCacheKeyRequest { base with headers := h1 } keyHeaders).map KeyRequest.url
      = (buildCacheKeyRequest { base with headers := h2 } keyHeaders).map KeyRequest.url := by
  have hget : ∀ n, headersGet h1 n = headersGet h2 n := headersGet_perm_eq hp hn
  have hser : serializeRequestBodyForKey { base with headers := h1 }
      = serializeRequestBodyForKey { base with headers := h2 } := by
    rw [serializeRequestBodyForKey, serializeRequestBodyForKey, hget "content-type"]
  rw [buildCacheKeyRequest, buildCacheKeyRequest, hser]
  cases hs : serializeRequestBodyForKey { base with headers := h2 } with
  | none => rfl
  | some body =>
    have hfold :
        (keyHeaders.foldl
          (fun ps keyHeader => setParam ps ("__header-" ++ keyHeader)
            (jsStringOrNone (headersGet h1 keyHeader)))
          (setParam (setParam base.searchParams "__body" (jsOrNone body))
            "__method" base.method))
        = (keyHeaders.foldl
          (fun ps keyHeader => setParam ps ("__header-" ++ keyHeader)
            (jsStringOrNone (headersGet h2 keyHeader)))
          (setParam (setParam base.searchParams "__body" (jsOrNone body))
            "__method" base.method)) := by
      have hfun : (fun (ps : List Param) (keyHeader : String) =>
            setParam ps ("__header-" ++ keyHeader)
              (jsStringOrNone (headersGet h1 keyHeader)))
          = (fun (ps : List Param) (keyHeader : String) =>
            setParam ps ("__header-" ++ keyHeader)
              (jsStringOrNone (headersGet h2 keyHeader))) := by
        funext ps keyHeader
        rw [hget keyHeader]
      rw [hfun]
    simp only [Option.map_some]
    rw [hfold]
    rfl

theorem buildCacheKey_keyHeader_distinct (r1 r2 : Request) (keyHeaders : List String)
    (h0 v1 v2 : String) (k1 k2 : KeyRequest)
    (hmem : h0 ∈ keyHeaders)
    (hv1 : headersGet r1.headers h0 = some v1) (hv2 : headersGet r2.headers h0 = some v2)
    (hne : v1 ≠ v2) (hne1 : v1 ≠ "") (hne2 : v2 ≠ "")
    (hk1 : buildCacheKeyRequest r1 keyHeaders = some k1)
    (hk2 : buildCacheKeyRequest r2 keyHeaders = some k2) :
    k1.url ≠ k2.url := by
  intro he
  have g1 := buildCacheKeyRequest_getParam_header hmem hk1
  have g2 := buildCacheKeyRequest_getParam_header hmem hk2
  rw [hv1] at g1
  rw [hv2] at g2
  rw [he] at g1
  rw [g2] at g1
  have hval := Option.some.inj g1
  rw [jsStringOrNone, jsStringOrNone, if_neg hne2, if_neg hne1] at hval
  exact hne hval.symm

/-- Counterexample to C3, refuting each universally quantified clause of
the claim at a concrete input. (a) Two GET requests that differ only in
the order of their query parameters — a permutation of the
duplicate-named parameters `a=1&a=2` into `a=2&a=1` — produce different
Cache Keys: `URLSearchParams.sort()` compares names only and is stable,
so the differing relative order of equally named parameters survives
into the key URL. (b) Two requests that differ only in the order of
their headers — a permutation of the duplicate-named headers
`h: 1, h: 2` — produce different Cache Keys when `h` is listed in
`keyHeaders`, because `Headers.get` joins the values of equally named
headers in their stored order (`"1, 2"` vs `"2, 1"`). (c) Two requests
that differ in the value of the `keyHeaders` header `h` — the empty
string vs the literal `none` — produce identical Cache Keys, because
`headerValue || 'none'` collapses the falsy empty string to `none`. -/
theorem cacheKey_stability_counterexamples :
    (([("a", "1"), ("a", "2")] : List Param).Perm [("a", "2"), ("a", "1")] ∧
      (buildCacheKeyRequest
          { origin := "https://h", pathname := "/p"
            searchParams := [("a", "1"), ("a", "2")] } []).map KeyRequest.url
        ≠ (buildCacheKeyRequest
          { origin := "https://h", pathname := "/p"
            searchParams := [("a", "2"), ("a", "1")] } []).map KeyRequest.url) ∧
    (([("h", "1"), ("h", "2")] : List (String × String)).Perm [("h", "2"), ("h", "1")] ∧
      (buildCacheKeyRequest
          { origin := "https://h", pathname := "/p"
            headers := [("h", "1"), ("h", "2")] } ["h"]).map KeyRequest.url
        ≠ (buildCacheKeyRequest
          { origin := "https://h", pathname := "/p"
            headers := [("h", "2"), ("h", "1")] } ["h"]).map KeyRequest.url) ∧
    (headersGet [("h", "")] "h" = some "" ∧
      headersGet [("h", "none")] "h" = some "none" ∧
      ("" : String) ≠ "none" ∧
      (buildCacheKeyRequest
          { origin := "https://h", pathname := "/p"
            headers := [("h", "")] } ["h"]).map KeyRequest.url
        = (buildCacheKeyRequest
          { origin := "https://h", pathname := "/p"
            headers := [("h", "none")] } ["h"]).map KeyRequest.url) :=
  ⟨⟨by decide, by decide⟩, ⟨by decide, by decide⟩, by decide, by decide, by decide, by decide⟩

/-- C3 (amended): Cache Keys are stable under permutation of the
top-level keys of an `application/json` body (distinct keys, as produced
by `JSON.parse`), under permutations of query parameters with distinct
names, and under re-ordering of request headers with distinct
case-insensitive names — permutations that reorder identically named
query parameters or identically named headers can change the key, as
counterexample parts (a) and (b) show; and requests whose values for a
header listed in `keyHeaders` are present, non-empty and different
always produce distinct Cache Key URLs — an empty value collides with
the literal `none` via `headerValue || 'none'`, as counterexample part
(c) shows. -/
theorem cacheKey_stability_amended :
    (∀ (base : Request) (keyHeaders : List String) (raw1 raw2 : String)
        (e1 e2 : List (String × Json)),
      strContains ((headersGet base.headers "content-type").getD "")
          "application/json" = true →
      e1.Perm e2 → (e1.map Prod.fst).Nodup →
      buildCacheKeyRequest
          { base with body := { raw := raw1, json := some (.obj e1) } } keyHeaders
        = buildCacheKeyRequest
          { base with body := { raw := raw2, json := some (.obj e2) } } keyHeaders) ∧
    (∀ (base : Request) (keyHeaders : List String) (p1 p2 : List Param),
      p1.Perm p2 → (p1.map Prod.fst).Nodup →
      buildCacheKeyRequest { base with searchParams := p1 } keyHeaders
        = buildCacheKeyRequest { base with searchParams := p2 } keyHeaders) ∧
    (∀ (base : Request) (keyHeaders : List String) (h1 h2 : List (String × String)),
      h1.Perm h2 → (h1.map (fun p => strToLower p.1)).Nodup →
      (buildCacheKeyRequest { base with headers := h1 } keyHeaders).map KeyRequest.url
        = (buildCacheKeyRequest { base with headers := h2 } keyHeaders).map
            KeyRequest.url) ∧
    (∀ (r1 r2 : Request) (keyHeaders : List String) (h0 v1 v2 : String)
        (k1 k2 : KeyRequest),
      h0 ∈ keyHeaders → headersGet r1.headers h0 = some v1 →
      headersGet r2.headers h0 = some v2 → v1 ≠ v2 → v1 ≠ "" → v2 ≠ "" →
      buildCacheKeyRequest r1 keyHeaders = some k1 →
      buildCacheKeyRequest r2 keyHeaders = some k2 →
      k1.url ≠ k2.url) :=
  ⟨buildCacheKey_json_body_perm, buildCacheKey_query_perm, buildCacheKey_header_perm,
    buildCacheKey_keyHeader_distinct⟩

/-- Witness for the amended C3, exercising all four parts at concrete
inputs. -/
theorem cacheKey_stability_amended_witness :
    (([("b", "2"), ("a", "1")] : List Param).Perm [("a", "1"), ("b", "2")] ∧
      (([("b", "2"), ("a", "1")] : List Param).map Prod.fst).Nodup ∧
      buildCacheKeyRequest
          { origin := "https://h", pathname := "/p"
            searchParams := [("b", "2"), ("a", "1")] } []
        = buildCacheKeyRequest
          { origin := "https://h", pathname := "/p"
            searchParams := [("a", "1"), ("b", "2")] } []) ∧
    (buildCacheKeyRequest
        { origin := "https://h", pathname := "/p", method := "POST"
          headers := [("content-type", "application/json")]
          body := { raw := "", json := some (.obj [("x", .num 1), ("y", .num 2)]) } } []
      = buildCacheKeyRequest
        { origin := "https://h", pathname := "/p", method := "POST"
          headers := [("content-type", "application/json")]
          body := { raw := "", json := some (.obj [("y", .num 2), ("x", .num 1)]) } } []) ∧
    ((buildCacheKeyRequest
        { origin := "https://h", pathname := "/p"
          headers := [("X", "1"), ("Y", "2")] } []).map KeyRequest.url
      = (buildCacheKeyRequest
        { origin := "https://h", pathname := "/p"
          headers := [("Y", "2"), ("X", "1")] } []).map KeyRequest.url) ∧
    (({ url := { origin := "https://h", pathname := "p"
                 searchParams := [("__body", "none"), ("__header-h", "A"),
                   ("__method", "GET")] }
        method := "GET", headers := [("h", "A")] } : KeyRequest).url
      ≠ ({ url := { origin := "https://h", pathname := "p"
                    searchParams := [("__body", "none"), ("__header-h", "B"),
                      ("__method", "GET")] }
           method := "GET", headers := [("h", "B")] } : KeyRequest).url) := by
  refine ⟨⟨by decide, by decide, ?_⟩, ?_, ?_, ?_⟩
  · exact cacheKey_stability_amended.2.1
      { origin := "https://h", pathname := "/p", searchParams := [] } []
      [("b", "2"), ("a", "1")] [("a", "1"), ("b", "2")] (by decide) (by decide)
  · exact cacheKey_stability_amended.1
      { origin := "https://h", pathname := "/p", method := "POST"
        headers := [("content-type", "application/json")] } [] "" ""
      [("x", .num 1), ("y", .num 2)] [("y", .num 2), ("x", .num 1)]
      (by decide) (List.Perm.swap _ _ _) (by decide)
  · exact cacheKey_stability_amended.2.2.1
      { origin := "https://h", pathname := "/p" } []
      [("X", "1"), ("Y", "2")] [("Y", "2"), ("X", "1")] (by decide) (by decide)
  · exact cacheKey_stability_amended.2.2.2
      { origin := "https://h", pathname := "/p", headers := [("h", "A")] }
      { origin := "https://h", pathname := "/p", headers := [("h", "B")] }
      ["h"] "h" "A" "B" _ _ (by decide) (by decide) (by decide) (by decide)
      (by decide) (by decide) (by decide) (by decide)

end FullCache
